import Mathlib

/-!
Verification development for the near-apps permissioned cross-contract call
relay (AssemblyScript / near-sdk-as).  The contract state (persistent
whitelist map, required-tag set, string storage, account balance) is embedded
as a Lean structure; each exported contract function becomes a Lean function
returning `Except Err ...`, where `.error` models an `assert` failure that
aborts the invocation (the host reverts all state writes of an aborted
invocation, so an `.error` result leaves persisted state unchanged).

Top-level module code (`whitelist.set(Context.contractName, "admin")`) runs at
the start of every invocation; that is modelled by `moduleInit`, and the
`...Invoke` wrappers compose it with the corresponding exported function.

External collaborators (the host's storage engine, promise primitives and the
JSON parser) are out of scope per the design; JSON parsing is modelled by an
oracle `parse : String -> Option JsonObj`, and scheduling by explicit
dispatch-plan values recording exactly the promise calls the code makes.
-/

namespace NearApps

/-- Persistent string-to-string map, as an association list in insertion
order (models `PersistentUnorderedMap<string, string>` and `Storage`). -/
abbrev KV := List (String × String)

def mapGet : KV → String → Option String
  | [], _ => none
  | (k2, v2) :: rest, k => if k2 = k then some v2 else mapGet rest k

def mapSet : KV → String → String → KV
  | [], k, v => [(k, v)]
  | (k2, v2) :: rest, k, v =>
    if k2 = k then (k, v) :: rest else (k2, v2) :: mapSet rest k v

def mapContains (m : KV) (k : String) : Bool := (mapGet m k).isSome

/-- Invocation context supplied by the host (`Context`). -/
structure Ctx where
  predecessor : String
  contractName : String
deriving DecidableEq, Repr

/-- The contract's persistent state plus the account balance visible to the
invocation: `whitelist` (prefix 'x'), `requiredTags` (prefix 'y', a
`PersistentSet` kept in insertion order), string `storage` (keys "init" and
"trust"), and `Context.accountBalance`. -/
structure ContractState where
  whitelist : KV
  requiredTags : List String
  storage : KV
  balance : Nat
deriving DecidableEq, Repr

/-- Abort causes: each constructor corresponds to one `assert` message in the
source (or to a failed JSON parse / cast). -/
inductive Err where
  | alreadyInitialized
  | unknownPermissionLevel (level : String)
  | insufficientPermissions (who : String)
  | unknownTrustLevel (level : String)
  | emptyCalls
  | heterogeneousTarget
  | notTrusted (addr : String)
  | insufficientFunds
  | malformedPayload
  | extraTags (names : List String)
  | missingTags (names : List String)
  | nullTagValue (name : String)
  | nullString
deriving DecidableEq, Repr

def U128MOD : Nat := 2 ^ 128

/-- `u128.add`: addition wrapping at 2^128. -/
def u128add (a b : Nat) : Nat := (a + b) % U128MOD

/-- `ContractCall` from model.ts: `{addr, func, args, gas, depo}`. -/
structure ContractCall where
  addr : String
  func : String
  args : String
  gas : Nat
  depo : Nat
deriving DecidableEq, Repr

/-- Top-level module code, executed at the start of every invocation:
`whitelist.set(Context.contractName, "admin")`. -/
def moduleInit (ctx : Ctx) (st : ContractState) : ContractState :=
  { st with whitelist := mapSet st.whitelist ctx.contractName "admin" }

/-- `getPermissionLevel(account_id)`: stored level, or "untrusted" when the
account has no whitelist entry. -/
def getPermissionLevel (st : ContractState) (account_id : String) : String :=
  match mapGet st.whitelist account_id with
  | some l => l
  | none => "untrusted"

/-- `_has_permission(level)`: asserts `level` is a known level, then asserts
the predecessor is in the whitelist with exactly that stored level. -/
def _has_permission (ctx : Ctx) (st : ContractState) (level : String) :
    Except Err Unit :=
  if level = "untrusted" ∨ level = "trusted" ∨ level = "admin" then
    if mapContains st.whitelist ctx.predecessor
        ∧ getPermissionLevel st ctx.predecessor = level then
      .ok ()
    else .error (.insufficientPermissions ctx.predecessor)
  else .error (.unknownPermissionLevel level)

/-- Whitelist after `for (...) whitelist.set(account_ids[i], "admin")`. -/
def setAdminAll : KV → List String → KV
  | m, [] => m
  | m, a :: rest => setAdminAll (mapSet m a "admin") rest

/-- `init(account_ids)`: asserts the "init" marker is absent, registers every
given account as admin, then sets `init := "done"` and `trust := "trusted"`. -/
def init (st : ContractState) (account_ids : List String) :
    Except Err ContractState :=
  match mapGet st.storage "init" with
  | some _ => .error .alreadyInitialized
  | none =>
    .ok { st with
          whitelist := setAdminAll st.whitelist account_ids,
          storage := mapSet (mapSet st.storage "init" "done") "trust" "trusted" }

/-- `setTrustLevel(level)`: asserts `level` is "trusted" or "all", then
persists it under the "trust" key.  No caller-authorization check. -/
def setTrustLevel (st : ContractState) (level : String) :
    Except Err ContractState :=
  if level = "trusted" ∨ level = "all" then
    .ok { st with storage := mapSet st.storage "trust" level }
  else .error (.unknownTrustLevel level)

/-- Whitelist after `for (...) whitelist.set(account_ids[i], level)`. -/
def setLevelAll : KV → List String → String → KV
  | m, [], _ => m
  | m, a :: rest, level => setLevelAll (mapSet m a level) rest level

/-- `grantPermissionLevel(account_ids, level)`: requires exact admin
permission, validates `level`, then overwrites each listed entry. -/
def grantPermissionLevel (ctx : Ctx) (st : ContractState)
    (account_ids : List String) (level : String) : Except Err ContractState :=
  match _has_permission ctx st "admin" with
  | .error e => .error e
  | .ok _ =>
    if level = "untrusted" ∨ level = "trusted" ∨ level = "admin" then
      .ok { st with whitelist := setLevelAll st.whitelist account_ids level }
    else .error (.unknownPermissionLevel level)

/-- An `init` invocation: module top-level code, then the `init` body. -/
def initInvoke (ctx : Ctx) (st : ContractState) (account_ids : List String) :
    Except Err ContractState :=
  init (moduleInit ctx st) account_ids

/-- A `setTrustLevel` invocation: module top-level code, then the body. -/
def setTrustLevelInvoke (ctx : Ctx) (st : ContractState) (level : String) :
    Except Err ContractState :=
  setTrustLevel (moduleInit ctx st) level

/-- A `grantPermissionLevel` invocation: module top-level code, then body. -/
def grantInvoke (ctx : Ctx) (st : ContractState) (account_ids : List String)
    (level : String) : Except Err ContractState :=
  grantPermissionLevel ctx (moduleInit ctx st) account_ids level

/-- A `getPermissionLevel` invocation: module top-level code, then the read. -/
def getPermissionLevelInvoke (ctx : Ctx) (st : ContractState)
    (account_id : String) : String :=
  getPermissionLevel (moduleInit ctx st) account_id

/-! JSON model for the flat tag payload (assemblyscript-json).  A parsed
object keeps its entries in document order; `getString` returns `none` when
the key is absent or its value is not a string (that is the `JSON.Str | null`
of the source). -/

inductive JsonValue where
  | jstr (s : String)
  | jnull
  | jother
deriving DecidableEq, Repr

structure JsonObj where
  entries : List (String × JsonValue)
deriving DecidableEq, Repr

def jsonLookup : List (String × JsonValue) → String → Option JsonValue
  | [], _ => none
  | (k2, v2) :: rest, k => if k2 = k then some v2 else jsonLookup rest k

def JsonObj.keys (o : JsonObj) : List String := o.entries.map Prod.fst

/-- `tagsJSON.valueOf().has(t)`: key present, whatever its value. -/
def JsonObj.has (o : JsonObj) (k : String) : Bool :=
  (jsonLookup o.entries k).isSome

/-- `tagsJSON.getString(k)`: the string value, or null. -/
def JsonObj.getString (o : JsonObj) (k : String) : Option String :=
  match jsonLookup o.entries k with
  | some (.jstr s) => some s
  | _ => none

/-- The JSON parser (external collaborator): `none` models a parse or cast
failure of `<JSON.Obj>(JSON.parse(tags))`, which aborts the invocation. -/
abbrev ParseFn := String → Option JsonObj

/-- The per-key loop asserting no tag has a null (non-string) value. -/
def checkNullLoop (o : JsonObj) : List String → Except Err Unit
  | [] => .ok ()
  | k :: rest =>
    if (o.getString k).isSome then checkNullLoop o rest
    else .error (.nullTagValue k)

/-- The "make sure tags are valid & complete" block of `logCall`, shared by
both variants: parse, reject extra keys, reject missing keys, reject null
values (in that order). -/
def checkTags (req : List String) (parse : ParseFn) (tags : String) :
    Except Err JsonObj :=
  match parse tags with
  | none => .error .malformedPayload
  | some obj =>
    match obj.keys.filter (fun t => !(req.contains t)) with
    | e :: es => .error (.extraTags (e :: es))
    | [] =>
      match req.filter (fun t => !(obj.has t)) with
      | m :: ms => .error (.missingTags (m :: ms))
      | [] =>
        match checkNullLoop obj obj.keys with
        | .error er => .error er
        | .ok _ => .ok obj

/-- The trust condition of `logCall`'s validation loop:
`getPermissionLevel(addr) == "trusted" || Storage.get("trust") == "all"`. -/
def trustOk (st : ContractState) (addr : String) : Bool :=
  getPermissionLevel st addr == "trusted" || mapGet st.storage "trust" == some "all"

/-- The validation loop of the sequential-chain variant of `logCall`: each
descriptor's target must satisfy `trustOk`, first offender reported. -/
def checkTrustLoop (st : ContractState) : List ContractCall → Except Err Unit
  | [] => .ok ()
  | c :: rest =>
    if trustOk st c.addr then checkTrustLoop st rest
    else .error (.notTrusted c.addr)

/-- The continuation message of the sequential variant: the JSON arrays
`"addr":[...]` and `"func":[...]` built call by call, plus the raw tag
payload. -/
structure ContinuationMsgSeq where
  addrList : List String
  funcList : List String
  tagsPayload : String
deriving DecidableEq, Repr

/-- The single continuation registration
`ContractPromise.all(allPromises).then(Context.contractName, "_callback",
msg, 50 Tgas, u128.Zero)`. -/
structure ContinuationSeq where
  target : String
  method : String
  msg : ContinuationMsgSeq
  gas : Nat
  deposit : Nat
deriving DecidableEq, Repr

/-- Dispatch plan of the sequential variant: the chained promises (one per
descriptor, each `.then` of the previous, in batch order) and the
continuation attached to their join. -/
structure SeqPlan where
  chain : List ContractCall
  cont : ContinuationSeq
deriving DecidableEq, Repr

def mkSeqPlan (ctx : Ctx) (tags : String) (calls : List ContractCall) :
    SeqPlan :=
  { chain := calls,
    cont := { target := ctx.contractName, method := "_callback",
              msg := { addrList := calls.map ContractCall.addr,
                       funcList := calls.map ContractCall.func,
                       tagsPayload := tags },
              gas := 50000000000000, deposit := 0 } }

/-- `logCall(tags, calls)` of the sequential-chain variant
(src/assembly/index.ts): asserts the batch is non-empty, runs the per-target
trust loop, checks `calls[0].depo <= Context.accountBalance`, validates the
tag payload, then schedules the chain and its continuation. -/
def logCall (ctx : Ctx) (st : ContractState) (parse : ParseFn) (tags : String)
    (calls : List ContractCall) : Except Err SeqPlan :=
  match calls with
  | [] => .error .emptyCalls
  | c0 :: rest =>
    match checkTrustLoop st (c0 :: rest) with
    | .error e => .error e
    | .ok _ =>
      if c0.depo ≤ st.balance then
        match checkTags st.requiredTags parse tags with
        | .error e => .error e
        | .ok _ => .ok (mkSeqPlan ctx tags (c0 :: rest))
      else .error .insufficientFunds

/-- The validation loop of the batch variant (part_001 `logCall`): per
descriptor, assert its target equals `batch[0].addr`, assert `trustOk`, and
accumulate the deposit with `u128.add`; returns the total deposit. -/
def checkBatchLoop (st : ContractState) (a0 : String) :
    List ContractCall → Nat → Except Err Nat
  | [], acc => .ok acc
  | c :: rest, acc =>
    if c.addr = a0 then
      if trustOk st c.addr then checkBatchLoop st a0 rest (u128add acc c.depo)
      else .error (.notTrusted c.addr)
    else .error .heterogeneousTarget

/-- `u128` sum of the deposits across a batch, as the loop computes it. -/
def batchDepositSum (calls : List ContractCall) : Nat :=
  calls.foldl (fun a c => u128add a c.depo) 0

/-- One `function_call` action of a `ContractPromiseBatch`. -/
structure BatchAction where
  func : String
  args : String
  depo : Nat
  gas : Nat
deriving DecidableEq, Repr

def toAction (c : ContractCall) : BatchAction :=
  { func := c.func, args := c.args, depo := c.depo, gas := c.gas }

/-- The continuation of the batch variant: its message carries one target
address (`batch[0].addr`) and one function name (`batch[0].func`) plus the
raw tag payload. -/
structure ContinuationP where
  target : String
  method : String
  addrS : String
  funcS : String
  tagsPayload : String
  gas : Nat
  deposit : Nat
deriving DecidableEq, Repr

def mkContP (ctx : Ctx) (c0 : ContractCall) (tags : String) : ContinuationP :=
  { target := ctx.contractName, method := "_callback",
    addrS := c0.addr, funcS := c0.func, tagsPayload := tags,
    gas := 50000000000000, deposit := 0 }

/-- Dispatch plan of the single/parallel variant: one direct promise, or one
`ContractPromiseBatch` against the shared target with its ordered
`function_call` actions; each with the continuation registration. -/
inductive PlanP where
  | single (call : ContractCall) (cont : ContinuationP)
  | batch (target : String) (actions : List BatchAction) (cont : ContinuationP)
deriving DecidableEq, Repr

def PlanP.cont : PlanP → ContinuationP
  | .single _ c => c
  | .batch _ _ c => c

/-- `logCall(tags, batch)` of the single/parallel variant (part_001):
asserts the batch is non-empty; per descriptor asserts same target and trust
while summing deposits; asserts the total deposit fits the balance; validates
the tag payload; then lowers the batch to a single promise (length 1) or a
`ContractPromiseBatch` of actions in batch order (length > 1). -/
def logCallP (ctx : Ctx) (st : ContractState) (parse : ParseFn) (tags : String)
    (batch : List ContractCall) : Except Err PlanP :=
  match batch with
  | [] => .error .emptyCalls
  | c0 :: rest =>
    match checkBatchLoop st c0.addr (c0 :: rest) 0 with
    | .error e => .error e
    | .ok total =>
      if total ≤ st.balance then
        match checkTags st.requiredTags parse tags with
        | .error e => .error e
        | .ok _ =>
          if rest = [] then .ok (.single c0 (mkContP ctx c0 tags))
          else .ok (.batch c0.addr ((c0 :: rest).map toAction)
                      (mkContP ctx c0 tags))
      else .error .insufficientFunds

/-! The result aggregator (`_callback`, src/assembly/index.ts).  A settled
outcome delivered by the host is exactly one of succeeded / still pending /
failed; a succeeded outcome carries the text payload that
`results[i].decode<string>()` yields (decoding a settled successful payload
is a capability the host guarantees; the code never decodes a failed
outcome's payload).  Logging is modelled by the list of per-call audit
records plus the trailing joined tag string. -/

inductive Outcome where
  | succeeded (payload : String)
  | pending
  | failed
deriving DecidableEq, Repr

/-- The `state` string built from the three mutually exclusive flags. -/
def stateText : Outcome → String
  | .succeeded _ => "succeeded"
  | .pending => "is still pending"
  | .failed => "failed"

/-- `results[i].succeeded ? results[i].decode<string>() : "[Error]"`. -/
def resultText : Outcome → String
  | .succeeded p => p
  | .pending => "[Error]"
  | .failed => "[Error]"

/-- One audit record: the pieces of the per-result `logging.log` line. -/
structure AuditRecord where
  func : String
  addr : String
  stateS : String
  resultS : String
deriving DecidableEq, Repr

def mkRecord (a f : String) (o : Outcome) : AuditRecord :=
  { func := f, addr := a, stateS := stateText o, resultS := resultText o }

/-- `_toOrdinaryString(strOrNull)`: asserts the value is not null and
returns the string. -/
def _toOrdinaryString : Option String → Except Err String
  | some s => .ok s
  | none => .error .nullString

/-- The `tagsString` construction: each key rendered through
`_toOrdinaryString(tagsJSON.getString(t))`; the first null value aborts. -/
def tagsStringLoop (o : JsonObj) : List String → Except Err (List String)
  | [] => .ok []
  | k :: rest =>
    match _toOrdinaryString (o.getString k) with
    | .error e => .error e
    | .ok v =>
      match tagsStringLoop o rest with
      | .error e => .error e
      | .ok vs => .ok ((k ++ ": " ++ v) :: vs)

/-- The per-result loop of `_callback`: one record for index i built from
`func[i]`, `addr[i]` and `results[i]`, in ascending i. -/
def callbackLoop : List Outcome → List String → List String → List AuditRecord
  | [], _, _ => []
  | o :: os, addrs, funcs =>
    mkRecord (addrs.headD "") (funcs.headD "") o :: callbackLoop os addrs.tail funcs.tail

/-- `_callback(addr, func, tags)` of the sequential variant: re-parses the
tag payload, renders the tag string (aborting on a null value), then emits
one audit record per settled outcome in scheduling order, and finally logs
the tag string. -/
def _callback (parse : ParseFn) (addr func : List String) (tags : String)
    (results : List Outcome) : Except Err (List AuditRecord × String) :=
  match parse tags with
  | none => .error .malformedPayload
  | some obj =>
    match tagsStringLoop obj obj.keys with
    | .error e => .error e
    | .ok parts => .ok (callbackLoop results addr func, String.intercalate ",\n" parts)

/-! Basic lemmas about the persistent-map model. -/

theorem mapGet_mapSet_self (m : KV) (k v : String) :
    mapGet (mapSet m k v) k = some v := by
  induction m with
  | nil => simp [mapSet, mapGet]
  | cons p rest ih =>
    obtain ⟨k2, v2⟩ := p
    by_cases h : k2 = k
    · simp [mapSet, h, mapGet]
    · simp [mapSet, h, mapGet, ih]

theorem mapGet_mapSet_ne (m : KV) (k k2 v : String) (h : k ≠ k2) :
    mapGet (mapSet m k v) k2 = mapGet m k2 := by
  induction m with
  | nil => simp [mapSet, mapGet, h]
  | cons p rest ih =>
    obtain ⟨k3, v3⟩ := p
    by_cases h2 : k3 = k
    · subst h2; simp [mapSet, mapGet, h]
    · simp [mapSet, h2, mapGet, ih]

theorem setAdminAll_preserves (ids : List String) :
    ∀ (m : KV) (k : String), mapGet m k = some "admin" →
    mapGet (setAdminAll m ids) k = some "admin" := by
  induction ids with
  | nil => intro m k h; simpa [setAdminAll] using h
  | cons a rest ih =>
    intro m k h
    simp only [setAdminAll]
    apply ih
    by_cases hak : a = k
    · subst hak; exact mapGet_mapSet_self m a "admin"
    · rw [mapGet_mapSet_ne m a k "admin" hak]; exact h

theorem setAdminAll_mem (ids : List String) :
    ∀ (m : KV) (k : String), k ∈ ids →
    mapGet (setAdminAll m ids) k = some "admin" := by
  induction ids with
  | nil => intro m k h; cases h
  | cons a rest ih =>
    intro m k h
    simp only [setAdminAll]
    rcases List.mem_cons.mp h with h1 | h2
    · subst h1; exact setAdminAll_preserves rest _ k (mapGet_mapSet_self m k "admin")
    · exact ih _ k h2

/-! Lemmas about the validation loops. -/

theorem trustOk_iff (st : ContractState) (a : String) :
    trustOk st a = true ↔
      (getPermissionLevel st a = "trusted" ∨ mapGet st.storage "trust" = some "all") := by
  simp [trustOk]

theorem checkTrustLoop_ok_mem (st : ContractState) :
    ∀ (calls : List ContractCall), checkTrustLoop st calls = .ok () →
    ∀ c ∈ calls, trustOk st c.addr = true := by
  intro calls
  induction calls with
  | nil => intro _ c hc; cases hc
  | cons c0 rest ih =>
    intro h c hc
    cases ht : trustOk st c0.addr with
    | false => simp [checkTrustLoop, ht] at h
    | true =>
      simp only [checkTrustLoop, ht, if_true] at h
      rcases List.mem_cons.mp hc with h1 | h2
      · subst h1; exact ht
      · exact ih h c h2

theorem checkTrustLoop_head_error (st : ContractState) (c0 : ContractCall)
    (rest : List ContractCall) (h : trustOk st c0.addr = false) :
    checkTrustLoop st (c0 :: rest) = .error (.notTrusted c0.addr) := by
  simp [checkTrustLoop, h]

theorem checkBatchLoop_ok_total (st : ContractState) (a0 : String) :
    ∀ (cs : List ContractCall) (acc total : Nat),
    checkBatchLoop st a0 cs acc = .ok total →
    total = cs.foldl (fun a c => u128add a c.depo) acc := by
  intro cs
  induction cs with
  | nil =>
    intro acc total h
    simp only [checkBatchLoop] at h
    injection h with h
    simp [h.symm]
  | cons c rest ih =>
    intro acc total h
    by_cases ha : c.addr = a0
    · cases ht : trustOk st c.addr with
      | false => rw [ha] at ht; simp [checkBatchLoop, ha, ht] at h
      | true =>
        rw [ha] at ht
        simp only [checkBatchLoop, ha, if_true, ht] at h
        simpa using ih _ total h
    · simp [checkBatchLoop, ha] at h

theorem checkBatchLoop_ok_addr (st : ContractState) (a0 : String) :
    ∀ (cs : List ContractCall) (acc total : Nat),
    checkBatchLoop st a0 cs acc = .ok total →
    ∀ c ∈ cs, c.addr = a0 := by
  intro cs
  induction cs with
  | nil => intro _ _ _ c hc; cases hc
  | cons c0 rest ih =>
    intro acc total h c hc
    by_cases ha : c0.addr = a0
    · cases ht : trustOk st c0.addr with
      | false => rw [ha] at ht; simp [checkBatchLoop, ha, ht] at h
      | true =>
        rw [ha] at ht
        simp only [checkBatchLoop, ha, if_true, ht] at h
        rcases List.mem_cons.mp hc with h1 | h2
        · subst h1; exact ha
        · exact ih _ total h c h2
    · simp [checkBatchLoop, ha] at h

theorem checkBatchLoop_mismatch (st : ContractState) (a0 : String)
    (htr : trustOk st a0 = true) :
    ∀ (cs : List ContractCall) (acc : Nat),
    (∃ c, c ∈ cs ∧ c.addr ≠ a0) →
    checkBatchLoop st a0 cs acc = .error .heterogeneousTarget := by
  intro cs
  induction cs with
  | nil => intro _ h; obtain ⟨c, hc, _⟩ := h; cases hc
  | cons c0 rest ih =>
    intro acc h
    by_cases ha : c0.addr = a0
    · simp only [checkBatchLoop, ha, if_true, htr]
      apply ih
      obtain ⟨c, hc, hne⟩ := h
      rcases List.mem_cons.mp hc with h1 | h2
      · exact absurd (h1 ▸ ha) hne
      · exact ⟨c, h2, hne⟩
    · simp [checkBatchLoop, ha]

/-! Lemmas about tag validation and the callback loops. -/

theorem checkTags_ok (req : List String) (parse : ParseFn) (tags : String)
    (obj : JsonObj) (h : checkTags req parse tags = .ok obj) :
    parse tags = some obj ∧ checkNullLoop obj obj.keys = .ok () := by
  unfold checkTags at h
  cases hp : parse tags with
  | none => simp only [hp] at h; exact Except.noConfusion h
  | some o =>
    simp only [hp] at h
    cases he : o.keys.filter (fun t => !(req.contains t)) with
    | cons e es => simp only [he] at h; exact Except.noConfusion h
    | nil =>
      simp only [he] at h
      cases hm : req.filter (fun t => !(o.has t)) with
      | cons m ms => simp only [hm] at h; exact Except.noConfusion h
      | nil =>
        simp only [hm] at h
        cases hn : checkNullLoop o o.keys with
        | error er => simp only [hn] at h; exact Except.noConfusion h
        | ok u =>
          simp only [hn] at h
          injection h with h
          subst h
          exact ⟨rfl, by cases u; exact hn⟩

theorem tagsStringLoop_of_null_ok (o : JsonObj) :
    ∀ (ks : List String), checkNullLoop o ks = .ok () →
    ∃ parts, tagsStringLoop o ks = .ok parts := by
  intro ks
  induction ks with
  | nil => intro _; exact ⟨[], rfl⟩
  | cons k rest ih =>
    intro h
    cases hg : (o.getString k).isSome with
    | false => simp [checkNullLoop, hg] at h
    | true =>
      simp only [checkNullLoop, hg, if_true] at h
      obtain ⟨s, hs⟩ := Option.isSome_iff_exists.mp hg
      obtain ⟨parts, hparts⟩ := ih h
      refine ⟨(k ++ ": " ++ s) :: parts, ?_⟩
      simp [tagsStringLoop, hs, _toOrdinaryString, hparts]

theorem callbackLoop_length :
    ∀ (results : List Outcome) (addrs funcs : List String),
    (callbackLoop results addrs funcs).length = results.length := by
  intro results
  induction results with
  | nil => intro _ _; rfl
  | cons o os ih => intro addrs funcs; simp [callbackLoop, ih]

theorem headD_eq_getD_zero (l : List String) : l.headD "" = l.getD 0 "" := by
  cases l <;> rfl

theorem tail_getD (l : List String) (i : Nat) :
    l.tail.getD i "" = l.getD (i + 1) "" := by
  cases l <;> rfl

theorem callbackLoop_get :
    ∀ (results : List Outcome) (addrs funcs : List String) (i : Nat)
      (h1 : i < (callbackLoop results addrs funcs).length)
      (h2 : i < results.length),
    (callbackLoop results addrs funcs).get ⟨i, h1⟩ =
      mkRecord (addrs.getD i "") (funcs.getD i "") (results.get ⟨i, h2⟩) := by
  intro results
  induction results with
  | nil => intro _ _ i _ h2; exact absurd h2 (Nat.not_lt_zero i)
  | cons o os ih =>
    intro addrs funcs i h1 h2
    cases i with
    | zero => cases addrs <;> cases funcs <;> rfl
    | succ j =>
      have h1' : j < (callbackLoop os addrs.tail funcs.tail).length := by
        simpa [callbackLoop] using Nat.lt_of_succ_lt_succ h1
      have h2' : j < os.length := Nat.lt_of_succ_lt_succ h2
      calc (callbackLoop (o :: os) addrs funcs).get ⟨j + 1, h1⟩
          = (callbackLoop os addrs.tail funcs.tail).get ⟨j, h1'⟩ := rfl
        _ = mkRecord (addrs.tail.getD j "") (funcs.tail.getD j "")
              (os.get ⟨j, h2'⟩) := ih addrs.tail funcs.tail j h1' h2'
        _ = mkRecord (addrs.getD (j + 1) "") (funcs.getD (j + 1) "")
              ((o :: os).get ⟨j + 1, h2⟩) := by rw [tail_getD, tail_getD]; rfl

/-! Inversion and propagation lemmas for the two `logCall` variants. -/

theorem logCall_trust_error (ctx : Ctx) (st : ContractState) (parse : ParseFn)
    (tags : String) (c0 : ContractCall) (rest : List ContractCall) (e : Err)
    (h : checkTrustLoop st (c0 :: rest) = .error e) :
    logCall ctx st parse tags (c0 :: rest) = .error e := by
  simp [logCall, h]

theorem logCall_funds_error (ctx : Ctx) (st : ContractState) (parse : ParseFn)
    (tags : String) (c0 : ContractCall) (rest : List ContractCall)
    (h : checkTrustLoop st (c0 :: rest) = .ok ())
    (hlt : st.balance < c0.depo) :
    logCall ctx st parse tags (c0 :: rest) = .error .insufficientFunds := by
  simp [logCall, h, Nat.not_le.mpr hlt]

theorem logCall_tags_step (ctx : Ctx) (st : ContractState) (parse : ParseFn)
    (tags : String) (c0 : ContractCall) (rest : List ContractCall)
    (h : checkTrustLoop st (c0 :: rest) = .ok ())
    (hle : c0.depo ≤ st.balance) :
    logCall ctx st parse tags (c0 :: rest) =
      match checkTags st.requiredTags parse tags with
      | .error e => .error e
      | .ok _ => .ok (mkSeqPlan ctx tags (c0 :: rest)) := by
  simp [logCall, h, hle]

theorem logCall_ok_inv (ctx : Ctx) (st : ContractState) (parse : ParseFn)
    (tags : String) (c0 : ContractCall) (rest : List ContractCall)
    (plan : SeqPlan) (h : logCall ctx st parse tags (c0 :: rest) = .ok plan) :
    checkTrustLoop st (c0 :: rest) = .ok ()
    ∧ c0.depo ≤ st.balance
    ∧ plan = mkSeqPlan ctx tags (c0 :: rest) := by
  unfold logCall at h
  cases ht : checkTrustLoop st (c0 :: rest) with
  | error e => simp only [ht] at h; exact Except.noConfusion h
  | ok u =>
    simp only [ht] at h
    by_cases hle : c0.depo ≤ st.balance
    · rw [if_pos hle] at h
      cases hct : checkTags st.requiredTags parse tags with
      | error e => simp only [hct] at h; exact Except.noConfusion h
      | ok obj =>
        simp only [hct] at h
        injection h with h
        exact ⟨by cases u; rfl, hle, h.symm⟩
    · rw [if_neg hle] at h; exact Except.noConfusion h

theorem logCallP_batch_error (ctx : Ctx) (st : ContractState) (parse : ParseFn)
    (tags : String) (c0 : ContractCall) (rest : List ContractCall) (e : Err)
    (h : checkBatchLoop st c0.addr (c0 :: rest) 0 = .error e) :
    logCallP ctx st parse tags (c0 :: rest) = .error e := by
  simp [logCallP, h]

theorem logCallP_ok_inv (ctx : Ctx) (st : ContractState) (parse : ParseFn)
    (tags : String) (c0 : ContractCall) (rest : List ContractCall)
    (plan : PlanP) (h : logCallP ctx st parse tags (c0 :: rest) = .ok plan) :
    (∃ total, checkBatchLoop st c0.addr (c0 :: rest) 0 = .ok total
       ∧ total ≤ st.balance)
    ∧ plan = (if rest = [] then PlanP.single c0 (mkContP ctx c0 tags)
              else PlanP.batch c0.addr ((c0 :: rest).map toAction)
                     (mkContP ctx c0 tags)) := by
  unfold logCallP at h
  cases hb : checkBatchLoop st c0.addr (c0 :: rest) 0 with
  | error e => simp only [hb] at h; exact Except.noConfusion h
  | ok total =>
    simp only [hb] at h
    by_cases hle : total ≤ st.balance
    · rw [if_pos hle] at h
      cases hct : checkTags st.requiredTags parse tags with
      | error e => simp only [hct] at h; exact Except.noConfusion h
      | ok obj =>
        simp only [hct] at h
        by_cases hr : rest = []
        · rw [if_pos hr] at h
          injection h with h
          exact ⟨⟨total, rfl, hle⟩, by rw [if_pos hr]; exact h.symm⟩
        · rw [if_neg hr] at h
          injection h with h
          exact ⟨⟨total, rfl, hle⟩, by rw [if_neg hr]; exact h.symm⟩
    · rw [if_neg hle] at h; exact Except.noConfusion h

theorem logCallP_funds_error (ctx : Ctx) (st : ContractState) (parse : ParseFn)
    (tags : String) (c0 : ContractCall) (rest : List ContractCall) (total : Nat)
    (h : checkBatchLoop st c0.addr (c0 :: rest) 0 = .ok total)
    (hlt : st.balance < total) :
    logCallP ctx st parse tags (c0 :: rest) = .error .insufficientFunds := by
  simp [logCallP, h, Nat.not_le.mpr hlt]

/-! Concrete states and inputs used by counterexamples and witnesses. -/

def exObjEmpty : JsonObj := ⟨[]⟩

/-- Parse oracle for an empty tag payload (schema empty in the examples). -/
def exParseEmpty : ParseFn := fun _ => some exObjEmpty

def exCtx : Ctx := { predecessor := "alice", contractName := "relay.near" }

/-- Whitelist trusts "a.com"; policy TrustedOnly; empty tag schema;
balance 100. -/
def exStTrusted : ContractState :=
  { whitelist := [("a.com", "trusted")], requiredTags := [],
    storage := [("init", "done"), ("trust", "trusted")], balance := 100 }

def exCallA : ContractCall :=
  { addr := "a.com", func := "f", args := "", gas := 10, depo := 60 }

def exCallB : ContractCall :=
  { addr := "a.com", func := "g", args := "", gas := 10, depo := 60 }

/-- A call whose single deposit already exceeds the balance of 100. -/
def exCallBig : ContractCall :=
  { addr := "a.com", func := "f", args := "", gas := 10, depo := 200 }

/-- State for the C2 counterexample: nobody whitelisted, schema requires
"purpose", policy TrustedOnly. -/
def exStC2 : ContractState :=
  { whitelist := [], requiredTags := ["purpose"],
    storage := [("init", "done"), ("trust", "trusted")], balance := 100 }

/-- A tag object with the single (unrequired) key "x". -/
def exObjX : JsonObj := ⟨[("x", .jstr "y")]⟩

def exParseX : ParseFn := fun s => if s = "tagsX" then some exObjX else none

def exCallBob : ContractCall :=
  { addr := "bob", func := "f", args := "", gas := 0, depo := 0 }

/-! ### C1 -/

/-- C1: the claim states that every `logCall` sums the deposits across the
batch and fails with InsufficientFundsError when the sum exceeds the balance.
Counterexample on the sequential-chain variant: a two-call batch whose
deposits sum to 120 against a balance of 100 is accepted and scheduled,
because the code only checks `calls[0].depo` (60) against the balance. -/
theorem C1_counterexample :
    batchDepositSum [exCallA, exCallB] = 120
    ∧ exStTrusted.balance = 100
    ∧ logCall exCtx exStTrusted exParseEmpty "t" [exCallA, exCallB] =
        .ok (mkSeqPlan exCtx "t" [exCallA, exCallB]) := by
  refine ⟨by decide, rfl, rfl⟩

/-- C1 (amended): the single/parallel variant of `logCall` sums the deposits
across the batch with `u128.add` and fails with InsufficientFundsError, before
any scheduling, whenever the sum exceeds the current balance; the
sequential-chain variant checks only the first descriptor's deposit against
the balance. -/
theorem C1_deposit_check (ctx : Ctx) (st : ContractState) (parse : ParseFn)
    (tags : String) (c0 : ContractCall) (rest : List ContractCall) :
    (∀ total, checkBatchLoop st c0.addr (c0 :: rest) 0 = .ok total →
       total = batchDepositSum (c0 :: rest)
       ∧ (st.balance < total →
          logCallP ctx st parse tags (c0 :: rest) = .error .insufficientFunds))
    ∧ (checkTrustLoop st (c0 :: rest) = .ok () → st.balance < c0.depo →
       logCall ctx st parse tags (c0 :: rest) = .error .insufficientFunds) := by
  constructor
  · intro total h
    refine ⟨checkBatchLoop_ok_total st c0.addr (c0 :: rest) 0 total h, ?_⟩
    intro hlt
    exact logCallP_funds_error ctx st parse tags c0 rest total h hlt
  · intro h hlt
    exact logCall_funds_error ctx st parse tags c0 rest h hlt

/-- C1 witness: concrete two-call batch with deposit sum 120 over balance 100;
the parallel variant rejects it with InsufficientFundsError, and the
sequential variant rejects a first-call deposit of 200. -/
theorem C1_deposit_check_witness :
    logCallP exCtx exStTrusted exParseEmpty "t" [exCallA, exCallB] =
      .error .insufficientFunds
    ∧ logCall exCtx exStTrusted exParseEmpty "t" [exCallBig] =
      .error .insufficientFunds := by
  constructor
  · exact ((C1_deposit_check exCtx exStTrusted exParseEmpty "t" exCallA
      [exCallB]).1 120 rfl).2 (by decide)
  · exact (C1_deposit_check exCtx exStTrusted exParseEmpty "t" exCallBig
      []).2 rfl (by decide)

/-! ### C2 -/

/-- C2: the claim states that validation runs tag checks first, so an input
violating both a tag rule and a trust rule reports the tag error.
Counterexample: with schema {"purpose"}, payload {"x": "y"} (an extra,
unrequired tag) and untrusted target "bob", `logCall` reports
`Contract bob is not trusted`, not the tag error. -/
theorem C2_counterexample :
    checkTags exStC2.requiredTags exParseX "tagsX" = .error (.extraTags ["x"])
    ∧ logCall exCtx exStC2 exParseX "tagsX" [exCallBob] =
        .error (.notTrusted "bob") := by
  exact ⟨rfl, rfl⟩

/-- C2 (amended): `logCall`'s validation steps run in the order (1) per-target
trust check, (2) funds check, (3) tag payload parse, (4) extra-tags check,
(5) missing-tags check, (6) null-value check; so for every input that
violates both a tag rule and a trust/funds rule, the reported failure is the
trust/funds error. -/
theorem C2_validation_order (ctx : Ctx) (st : ContractState) (parse : ParseFn)
    (tags : String) (c0 : ContractCall) (rest : List ContractCall) :
    (∀ e, checkTrustLoop st (c0 :: rest) = .error e →
       logCall ctx st parse tags (c0 :: rest) = .error e)
    ∧ (checkTrustLoop st (c0 :: rest) = .ok () → st.balance < c0.depo →
       logCall ctx st parse tags (c0 :: rest) = .error .insufficientFunds)
    ∧ (checkTrustLoop st (c0 :: rest) = .ok () → c0.depo ≤ st.balance →
       logCall ctx st parse tags (c0 :: rest) =
         match checkTags st.requiredTags parse tags with
         | .error e => .error e
         | .ok _ => .ok (mkSeqPlan ctx tags (c0 :: rest)))
    ∧ (∀ obj e es, parse tags = some obj →
       obj.keys.filter (fun t => !(st.requiredTags.contains t)) = e :: es →
       checkTags st.requiredTags parse tags = .error (.extraTags (e :: es)))
    ∧ (∀ obj m ms, parse tags = some obj →
       obj.keys.filter (fun t => !(st.requiredTags.contains t)) = [] →
       st.requiredTags.filter (fun t => !(obj.has t)) = m :: ms →
       checkTags st.requiredTags parse tags = .error (.missingTags (m :: ms))) := by
  refine ⟨?_, ?_, ?_, ?_, ?_⟩
  · intro e h; exact logCall_trust_error ctx st parse tags c0 rest e h
  · intro h hlt; exact logCall_funds_error ctx st parse tags c0 rest h hlt
  · intro h hle; exact logCall_tags_step ctx st parse tags c0 rest h hle
  · intro obj e es hp he; simp only [checkTags, hp, he]
  · intro obj m ms hp he hm; simp only [checkTags, hp, he, hm]

/-- C2 witness: for the doubly-violating concrete input of the
counterexample, the amended ordering derives the reported trust failure; and
with the trusted state and a missing required tag, the missing-tags error is
reported. -/
theorem C2_validation_order_witness :
    logCall exCtx exStC2 exParseX "tagsX" [exCallBob] =
      .error (.notTrusted "bob")
    ∧ checkTags ["purpose"] exParseEmpty "t" = .error (.missingTags ["purpose"]) := by
  constructor
  · exact (C2_validation_order exCtx exStC2 exParseX "tagsX" exCallBob []).1
      (.notTrusted "bob") rfl
  · exact (C2_validation_order exCtx
      { exStC2 with requiredTags := ["purpose"] } exParseEmpty "t" exCallBob
      []).2.2.2.2 exObjEmpty "purpose" [] rfl rfl rfl

/-! ### C3 -/

/-- C3: permission checks are exact-match, never hierarchical.
`_has_permission(level)` fails with the insufficient-permissions abort
whenever the caller's stored level differs from `level` (in particular an
admin caller does not satisfy a "trusted" requirement), and `logCall`'s trust
check accepts a target only if its stored level is exactly "trusted" or the
global trust policy is "all" (in particular an admin-level first target is
rejected under policy "trusted"). -/
theorem C3_exact_match (ctx : Ctx) (st : ContractState) (parse : ParseFn)
    (tags : String) (level : String) (c0 : ContractCall)
    (rest : List ContractCall) :
    ((level = "untrusted" ∨ level = "trusted" ∨ level = "admin") →
       getPermissionLevel st ctx.predecessor ≠ level →
       _has_permission ctx st level =
         .error (.insufficientPermissions ctx.predecessor))
    ∧ (getPermissionLevel st ctx.predecessor = "admin" →
       _has_permission ctx st "trusted" =
         .error (.insufficientPermissions ctx.predecessor))
    ∧ (∀ plan, logCall ctx st parse tags (c0 :: rest) = .ok plan →
       ∀ c, c ∈ (c0 :: rest) →
         getPermissionLevel st c.addr = "trusted"
         ∨ mapGet st.storage "trust" = some "all")
    ∧ (getPermissionLevel st c0.addr = "admin" →
       mapGet st.storage "trust" = some "trusted" →
       logCall ctx st parse tags (c0 :: rest) = .error (.notTrusted c0.addr)) := by
  refine ⟨?_, ?_, ?_, ?_⟩
  · intro hv hne
    have hcond : ¬ (mapContains st.whitelist ctx.predecessor
        ∧ getPermissionLevel st ctx.predecessor = level) := fun hc => hne hc.2
    simp [_has_permission, hv, hcond]
  · intro hadm
    have hne : getPermissionLevel st ctx.predecessor ≠ "trusted" := by
      rw [hadm]; decide
    have hcond : ¬ (mapContains st.whitelist ctx.predecessor
        ∧ getPermissionLevel st ctx.predecessor = "trusted") := fun hc => hne hc.2
    simp [_has_permission, hcond]
  · intro plan h c hc
    have htr := (logCall_ok_inv ctx st parse tags c0 rest plan h).1
    exact (trustOk_iff st c.addr).mp
      (checkTrustLoop_ok_mem st (c0 :: rest) htr c hc)
  · intro hadm htr
    have hfalse : trustOk st c0.addr = false := by
      apply Bool.eq_false_iff.mpr
      intro habs
      rcases (trustOk_iff st c0.addr).mp habs with h1 | h1
      · rw [hadm] at h1; exact absurd h1 (by decide)
      · rw [htr] at h1; exact absurd h1 (by decide)
    exact logCall_trust_error ctx st parse tags c0 rest (.notTrusted c0.addr)
      (checkTrustLoop_head_error st c0 rest hfalse)

/-- State for the C3 witness: the caller "alice" and the target "a.com" both
hold level admin; policy TrustedOnly. -/
def exStC3 : ContractState :=
  { whitelist := [("alice", "admin"), ("a.com", "admin")],
    requiredTags := [], storage := [("init", "done"), ("trust", "trusted")],
    balance := 100 }

/-- C3 witness: the admin caller "alice" fails a "trusted" requirement, and a
single-call batch against the admin-level target "a.com" is rejected as not
trusted under policy "trusted". -/
theorem C3_exact_match_witness :
    _has_permission exCtx exStC3 "trusted" =
      .error (.insufficientPermissions "alice")
    ∧ logCall exCtx exStC3 exParseEmpty "t" [exCallA] =
      .error (.notTrusted "a.com") := by
  constructor
  · exact (C3_exact_match exCtx exStC3 exParseEmpty "t" "trusted" exCallA
      []).2.1 rfl
  · exact (C3_exact_match exCtx exStC3 exParseEmpty "t" "trusted" exCallA
      []).2.2.2 rfl rfl

/-! ### C4 -/

/-- C4: `init` succeeds at most once.  On a state without the "init" marker
the invocation (module top-level code plus `init` body) succeeds, registers
every given account and the contract's own identity as admin, sets the trust
policy to "trusted" and stores the marker "done"; on any state carrying the
marker it aborts with the already-initialized failure (the host then reverts
the invocation's writes, leaving whitelist, policy and marker unchanged). -/
theorem initInvoke_ok (ctx : Ctx) (st : ContractState) (ids : List String)
    (hnone : mapGet st.storage "init" = none) :
    initInvoke ctx st ids =
      .ok ⟨setAdminAll (mapSet st.whitelist ctx.contractName "admin") ids,
           st.requiredTags,
           mapSet (mapSet st.storage "init" "done") "trust" "trusted",
           st.balance⟩ := by
  show init (moduleInit ctx st) ids = _
  unfold init
  rw [show mapGet (moduleInit ctx st).storage "init" = none from hnone]
  rfl

theorem C4_init_once (ctx : Ctx) (st : ContractState) (ids : List String) :
    (mapGet st.storage "init" = none →
       ∃ st2, initInvoke ctx st ids = .ok st2
         ∧ (∀ a, a ∈ ids → getPermissionLevel st2 a = "admin")
         ∧ getPermissionLevel st2 ctx.contractName = "admin"
         ∧ mapGet st2.storage "trust" = some "trusted"
         ∧ mapGet st2.storage "init" = some "done")
    ∧ (∀ v, mapGet st.storage "init" = some v →
       initInvoke ctx st ids = .error .alreadyInitialized) := by
  constructor
  · intro hnone
    refine ⟨_, initInvoke_ok ctx st ids hnone, ?_, ?_, ?_, ?_⟩
    · intro a ha
      unfold getPermissionLevel
      rw [show mapGet (ContractState.whitelist
            ⟨setAdminAll (mapSet st.whitelist ctx.contractName "admin") ids,
             st.requiredTags,
             mapSet (mapSet st.storage "init" "done") "trust" "trusted",
             st.balance⟩) a = some "admin" from setAdminAll_mem ids _ a ha]
    · unfold getPermissionLevel
      rw [show mapGet (ContractState.whitelist
            ⟨setAdminAll (mapSet st.whitelist ctx.contractName "admin") ids,
             st.requiredTags,
             mapSet (mapSet st.storage "init" "done") "trust" "trusted",
             st.balance⟩) ctx.contractName = some "admin" from
          setAdminAll_preserves ids _ ctx.contractName
            (mapGet_mapSet_self st.whitelist ctx.contractName "admin")]
    · exact mapGet_mapSet_self _ "trust" "trusted"
    · show mapGet (mapSet (mapSet st.storage "init" "done") "trust" "trusted")
          "init" = some "done"
      rw [mapGet_mapSet_ne _ "trust" "init" "trusted" (by decide)]
      exact mapGet_mapSet_self _ "init" "done"
  · intro v hv
    show init (moduleInit ctx st) ids = .error .alreadyInitialized
    unfold init
    rw [show mapGet (moduleInit ctx st).storage "init" = some v from hv]

/-- A fresh, never-initialized state. -/
def exStFresh : ContractState :=
  { whitelist := [], requiredTags := [], storage := [], balance := 0 }

/-- The state produced by `init(["alice"])` from `exStFresh` with deployer
"relay.near". -/
def exStInited : ContractState :=
  { whitelist := [("relay.near", "admin"), ("alice", "admin")],
    requiredTags := [],
    storage := [("init", "done"), ("trust", "trusted")], balance := 0 }

/-- C4 witness: on a fresh state, `init(["alice"])` by deployer "relay.near"
registers "alice" and "relay.near" as admin, sets policy "trusted" and the
marker "done"; repeating `init` on the resulting state aborts as already
initialized. -/
theorem C4_init_once_witness :
    initInvoke exCtx exStFresh ["alice"] = .ok exStInited
    ∧ getPermissionLevel exStInited "alice" = "admin"
    ∧ getPermissionLevel exStInited "relay.near" = "admin"
    ∧ initInvoke exCtx exStInited ["alice"] = .error .alreadyInitialized := by
  refine ⟨rfl, ?_, ?_, ?_⟩
  · obtain ⟨st2, hok, hids, _, _, _⟩ :=
      (C4_init_once exCtx exStFresh ["alice"]).1 rfl
    have hst2 : st2 = exStInited := by
      have := hok.symm.trans (show initInvoke exCtx exStFresh ["alice"]
        = .ok exStInited from rfl)
      injection this
    exact hst2 ▸ hids "alice" (by decide)
  · obtain ⟨st2, hok, _, hself, _, _⟩ :=
      (C4_init_once exCtx exStFresh ["alice"]).1 rfl
    have hst2 : st2 = exStInited := by
      have := hok.symm.trans (show initInvoke exCtx exStFresh ["alice"]
        = .ok exStInited from rfl)
      injection this
    exact hst2 ▸ hself
  · exact (C4_init_once exCtx exStInited ["alice"]).2 "done" rfl

/-! ### C5 -/

/-- C5: for a batch of two or more call descriptors, the single/parallel
variant of `logCall` accepts only batches whose targets all equal the first
one — a mismatching target makes it fail with the heterogeneous-target abort
(when the shared first target is trusted, so the mismatch is what the loop
reports) — and a validated batch is lowered to one multi-action plan against
that target whose `function_call` actions appear in batch order. -/
theorem C5_parallel_batch (ctx : Ctx) (st : ContractState) (parse : ParseFn)
    (tags : String) (c0 c1 : ContractCall) (rest2 : List ContractCall) :
    (∀ plan, logCallP ctx st parse tags (c0 :: c1 :: rest2) = .ok plan →
       (∀ c, c ∈ (c0 :: c1 :: rest2) → c.addr = c0.addr)
       ∧ plan = .batch c0.addr ((c0 :: c1 :: rest2).map toAction)
                  (mkContP ctx c0 tags))
    ∧ (trustOk st c0.addr = true →
       (∃ c, c ∈ (c0 :: c1 :: rest2) ∧ c.addr ≠ c0.addr) →
       logCallP ctx st parse tags (c0 :: c1 :: rest2) =
         .error .heterogeneousTarget) := by
  constructor
  · intro plan h
    obtain ⟨⟨total, hb, _⟩, hplan⟩ :=
      logCallP_ok_inv ctx st parse tags c0 (c1 :: rest2) plan h
    refine ⟨checkBatchLoop_ok_addr st c0.addr (c0 :: c1 :: rest2) 0 total hb, ?_⟩
    rw [hplan, if_neg (by simp : ¬ (c1 :: rest2 = []))]
  · intro htr hmis
    apply logCallP_batch_error
    exact checkBatchLoop_mismatch st c0.addr htr (c0 :: c1 :: rest2) 0
      (by obtain ⟨c, hc, hne⟩ := hmis; exact ⟨c, hc, hne⟩)

/-- A call descriptor against a second, different target "b.com". -/
def exCallOther : ContractCall :=
  { addr := "b.com", func := "h", args := "", gas := 5, depo := 0 }

/-- Calls with zero deposit against the trusted target "a.com". -/
def exCallF : ContractCall :=
  { addr := "a.com", func := "f", args := "", gas := 5, depo := 0 }

def exCallG : ContractCall :=
  { addr := "a.com", func := "g", args := "", gas := 5, depo := 0 }

/-- C5 witness: a valid two-call batch against "a.com" is lowered to one
multi-action plan in batch order, and mixing in target "b.com" is rejected as
heterogeneous. -/
theorem C5_parallel_batch_witness :
    ((∀ c, c ∈ [exCallF, exCallG] → c.addr = exCallF.addr)
      ∧ PlanP.batch "a.com" [toAction exCallF, toAction exCallG]
          (mkContP exCtx exCallF "t") =
        .batch exCallF.addr ([exCallF, exCallG].map toAction)
          (mkContP exCtx exCallF "t"))
    ∧ logCallP exCtx exStTrusted exParseEmpty "t" [exCallF, exCallOther] =
        .error .heterogeneousTarget := by
  constructor
  · exact (C5_parallel_batch exCtx exStTrusted exParseEmpty "t" exCallF
      exCallG []).1 (.batch "a.com" [toAction exCallF, toAction exCallG]
        (mkContP exCtx exCallF "t")) rfl
  · exact (C5_parallel_batch exCtx exStTrusted exParseEmpty "t" exCallF
      exCallOther []).2 rfl ⟨exCallOther, by simp, by decide⟩

/-! ### C6 -/

/-- C6: the result aggregator emits exactly one audit record per scheduled
call, in scheduling order; each record decodes the payload as text only when
its outcome succeeded and substitutes the fixed "[Error]" marker otherwise,
and an earlier failed outcome never suppresses a later outcome's record. -/
theorem C6_aggregator_records (parse : ParseFn) (addr func : List String)
    (tags : String) (results : List Outcome) (records : List AuditRecord)
    (ts : String)
    (h : _callback parse addr func tags results = .ok (records, ts)) :
    records.length = results.length
    ∧ (∀ i (h1 : i < records.length) (h2 : i < results.length),
        records.get ⟨i, h1⟩ =
          mkRecord (addr.getD i "") (func.getD i "") (results.get ⟨i, h2⟩))
    ∧ (∀ i (h1 : i < records.length) (h2 : i < results.length),
        (records.get ⟨i, h1⟩).resultS = resultText (results.get ⟨i, h2⟩)) := by
  have hrec : records = callbackLoop results addr func := by
    unfold _callback at h
    cases hp : parse tags with
    | none => simp only [hp] at h; exact Except.noConfusion h
    | some obj =>
      simp only [hp] at h
      cases hl : tagsStringLoop obj obj.keys with
      | error e => simp only [hl] at h; exact Except.noConfusion h
      | ok parts =>
        simp only [hl] at h
        injection h with h
        exact (congrArg Prod.fst h).symm
  subst hrec
  refine ⟨callbackLoop_length results addr func, ?_, ?_⟩
  · intro i h1 h2
    exact callbackLoop_get results addr func i h1 h2
  · intro i h1 h2
    rw [callbackLoop_get results addr func i h1 h2]
    rfl

/-- C6 witness: a three-call batch with outcomes succeeded/failed/succeeded
yields exactly three records in that order; the failed outcome's record
carries the "[Error]" marker and the flanking records carry the decoded
payloads. -/
theorem C6_aggregator_records_witness :
    ([mkRecord "a.com" "f" (.succeeded "r1"), mkRecord "a.com" "g" .failed,
      mkRecord "a.com" "h" (.succeeded "r3")].length
        = [Outcome.succeeded "r1", Outcome.failed, Outcome.succeeded "r3"].length)
    ∧ (mkRecord "a.com" "g" Outcome.failed).resultS = "[Error]"
    ∧ (mkRecord "a.com" "f" (Outcome.succeeded "r1")).resultS = "r1" := by
  refine ⟨?_, by decide, by decide⟩
  exact (C6_aggregator_records exParseEmpty ["a.com", "a.com", "a.com"]
    ["f", "g", "h"] "t" [.succeeded "r1", .failed, .succeeded "r3"]
    [mkRecord "a.com" "f" (.succeeded "r1"), mkRecord "a.com" "g" .failed,
     mkRecord "a.com" "h" (.succeeded "r3")] "" rfl).1

/-! ### C7 -/

/-- C7: the claim states that for every validated batch, regardless of
topology, the continuation's input contains the ordered list of all target
addresses and all function names.  Counterexample on the single/parallel
variant: a validated two-call batch scheduling functions "f" and "g" registers
a continuation whose input carries only the single function name "f" (and the
single target), so the second function name "g" is absent. -/
theorem C7_counterexample :
    logCallP exCtx exStTrusted exParseEmpty "t" [exCallF, exCallG] =
      .ok (.batch "a.com" [toAction exCallF, toAction exCallG]
             (mkContP exCtx exCallF "t"))
    ∧ (mkContP exCtx exCallF "t").funcS = "f"
    ∧ exCallG.func = "g"
    ∧ (mkContP exCtx exCallF "t").funcS ≠ exCallG.func := by
  exact ⟨rfl, rfl, rfl, by decide⟩

/-- C7 (amended): every validated batch registers exactly one continuation
against the contract's own identity with the fixed 50 Tgas reserve,
independent of the scheduled calls' gas budgets; the sequential-chain
variant's continuation input carries the ordered lists of all target
addresses and all function names plus the original tag payload, while the
single/parallel variant's continuation input carries only the first call's
target address and function name plus the tag payload. -/
theorem C7_continuation (ctx : Ctx) (st : ContractState) (parse : ParseFn)
    (tags : String) (calls : List ContractCall) (c0 : ContractCall)
    (rest : List ContractCall) :
    (∀ plan, logCall ctx st parse tags calls = .ok plan →
       plan.cont = { target := ctx.contractName, method := "_callback",
                     msg := { addrList := calls.map ContractCall.addr,
                              funcList := calls.map ContractCall.func,
                              tagsPayload := tags },
                     gas := 50000000000000, deposit := 0 })
    ∧ (∀ planP, logCallP ctx st parse tags (c0 :: rest) = .ok planP →
       PlanP.cont planP = mkContP ctx c0 tags
       ∧ (PlanP.cont planP).gas = 50000000000000) := by
  constructor
  · intro plan h
    match calls with
    | [] => exact Except.noConfusion h
    | c0 :: rest =>
      have hplan := (logCall_ok_inv ctx st parse tags c0 rest plan h).2.2
      rw [hplan]
      rfl
  · intro planP h
    have hplan := (logCallP_ok_inv ctx st parse tags c0 rest planP h).2
    rw [hplan]
    by_cases hr : rest = []
    · rw [if_pos hr]; exact ⟨rfl, rfl⟩
    · rw [if_neg hr]; exact ⟨rfl, rfl⟩

/-- C7 witness: concrete validated batches under both variants; the
sequential two-call chain's continuation carries both function names, while
the parallel two-call batch's continuation carries only "f". -/
theorem C7_continuation_witness :
    (mkSeqPlan exCtx "t" [exCallF, exCallG]).cont =
      { target := "relay.near", method := "_callback",
        msg := { addrList := ["a.com", "a.com"], funcList := ["f", "g"],
                 tagsPayload := "t" },
        gas := 50000000000000, deposit := 0 }
    ∧ PlanP.cont (.batch "a.com" [toAction exCallF, toAction exCallG]
        (mkContP exCtx exCallF "t")) = mkContP exCtx exCallF "t" := by
  constructor
  · exact (C7_continuation exCtx exStTrusted exParseEmpty "t"
      [exCallF, exCallG] exCallF [exCallG]).1
      (mkSeqPlan exCtx "t" [exCallF, exCallG]) rfl
  · exact ((C7_continuation exCtx exStTrusted exParseEmpty "t"
      [exCallF, exCallG] exCallF [exCallG]).2
      (.batch "a.com" [toAction exCallF, toAction exCallG]
        (mkContP exCtx exCallF "t")) rfl).1

/-! ### C8 -/

/-- Whether an invocation result is a normal completion. -/
def exceptIsOk (r : Except Err (List AuditRecord × String)) : Bool :=
  match r with
  | .ok _ => true
  | .error _ => false

/-- C8: the callback never aborts for a tag payload that passed validation.
For every outcome list the host can deliver — any mix of succeeded, pending
and failed outcomes, a succeeded outcome carrying any text payload —
`_callback` runs to completion: the null-value assertion inside
`_toOrdinaryString` cannot fire because validation already rejected payloads
with a null tag value, and the decoding branch is reached only for succeeded
outcomes. -/
theorem C8_callback_total (req : List String) (parse : ParseFn) (tags : String)
    (obj : JsonObj) (addr func : List String) (results : List Outcome)
    (h : checkTags req parse tags = .ok obj) :
    exceptIsOk (_callback parse addr func tags results) = true := by
  obtain ⟨hp, hn⟩ := checkTags_ok req parse tags obj h
  obtain ⟨parts, hparts⟩ := tagsStringLoop_of_null_ok obj obj.keys hn
  unfold _callback
  rw [hp]
  simp only [hparts]
  rfl

/-- A validated one-tag payload for the C8 witness. -/
def exObjPurpose : JsonObj := ⟨[("purpose", .jstr "test")]⟩

def exParsePurpose : ParseFn :=
  fun s => if s = "tagsP" then some exObjPurpose else none

/-- C8 witness: with schema {"purpose"} and the validated payload
{"purpose": "test"}, the callback completes on an outcome list mixing
success and failure. -/
theorem C8_callback_total_witness :
    exceptIsOk (_callback exParsePurpose ["a.com", "b.com"] ["f", "g"] "tagsP"
      [.succeeded "r1", .failed]) = true := by
  exact C8_callback_total ["purpose"] exParsePurpose "tagsP" exObjPurpose
    ["a.com", "b.com"] ["f", "g"] [.succeeded "r1", .failed] rfl

/-! ### C9 -/

/-- C9: the contract's own account is (re-)written into the whitelist with
level admin by top-level module code at the start of every invocation, so a
`getPermissionLevel` invocation on the contract's own identity returns
"admin" from every state — in particular from any state a previous
`grantPermissionLevel` invocation produced after assigning the contract's own
identity a different level. -/
theorem C9_self_admin (ctx : Ctx) (st : ContractState) :
    getPermissionLevelInvoke ctx st ctx.contractName = "admin"
    ∧ (∀ level st2, grantInvoke ctx st [ctx.contractName] level = .ok st2 →
        getPermissionLevelInvoke ctx st2 ctx.contractName = "admin") := by
  constructor
  · unfold getPermissionLevelInvoke getPermissionLevel moduleInit
    rw [show mapGet (mapSet st.whitelist ctx.contractName "admin")
          ctx.contractName = some "admin" from
        mapGet_mapSet_self st.whitelist ctx.contractName "admin"]
  · intro level st2 _
    unfold getPermissionLevelInvoke getPermissionLevel moduleInit
    rw [show mapGet (mapSet st2.whitelist ctx.contractName "admin")
          ctx.contractName = some "admin" from
        mapGet_mapSet_self st2.whitelist ctx.contractName "admin"]

/-- Admin caller "alice" only; used to drive a successful grant. -/
def exStC9 : ContractState :=
  { whitelist := [("alice", "admin")], requiredTags := [], storage := [],
    balance := 0 }

/-- State after `grantPermissionLevel(["relay.near"], "untrusted")` by
"alice" from `exStC9` (the invocation's module code first re-added
"relay.near" as admin, then the grant overwrote it). -/
def exStC9After : ContractState :=
  { whitelist := [("alice", "admin"), ("relay.near", "untrusted")],
    requiredTags := [], storage := [], balance := 0 }

/-- C9 witness: after a grant invocation demotes the contract's own account
"relay.near" to "untrusted" in storage, the next invocation still reports
"admin" for it, because the module top-level write runs again. -/
theorem C9_self_admin_witness :
    grantInvoke exCtx exStC9 ["relay.near"] "untrusted" = .ok exStC9After
    ∧ mapGet exStC9After.whitelist "relay.near" = some "untrusted"
    ∧ getPermissionLevelInvoke exCtx exStC9After "relay.near" = "admin" := by
  refine ⟨rfl, rfl, ?_⟩
  exact (C9_self_admin exCtx exStC9).2 "untrusted" exStC9After rfl

/-! ### C10 -/

/-- C10: `setTrustLevel` performs no caller-authorization check.  For every
context and state — any caller, including one with stored level "untrusted",
and states where `init` has never run — the invocation succeeds and persists
the policy exactly when the argument is "trusted" or "all", and fails with
the unknown-trust-level abort exactly otherwise. -/
theorem C10_setTrust_open (ctx : Ctx) (st : ContractState) (level : String) :
    ((level = "trusted" ∨ level = "all") →
       ∃ st2, setTrustLevelInvoke ctx st level = .ok st2
         ∧ mapGet st2.storage "trust" = some level)
    ∧ (¬ (level = "trusted" ∨ level = "all") →
       setTrustLevelInvoke ctx st level =
         .error (.unknownTrustLevel level)) := by
  constructor
  · intro hv
    refine ⟨{ moduleInit ctx st with storage := mapSet st.storage "trust" level },
      ?_, ?_⟩
    · show setTrustLevel (moduleInit ctx st) level = _
      unfold setTrustLevel
      rw [if_pos hv]
      rfl
    · exact mapGet_mapSet_self st.storage "trust" level
  · intro hv
    show setTrustLevel (moduleInit ctx st) level = _
    unfold setTrustLevel
    rw [if_neg hv]

/-- Context for an entirely unknown caller. -/
def exCtxMallory : Ctx :=
  { predecessor := "mallory", contractName := "relay.near" }

/-- C10 witness: on a fresh, never-initialized state, the unknown (hence
untrusted) caller "mallory" successfully sets the policy to "all", and the
out-of-range argument "admin" is rejected. -/
theorem C10_setTrust_open_witness :
    getPermissionLevel exStFresh "mallory" = "untrusted"
    ∧ mapGet exStFresh.storage "init" = none
    ∧ (∃ st2, setTrustLevelInvoke exCtxMallory exStFresh "all" = .ok st2
        ∧ mapGet st2.storage "trust" = some "all")
    ∧ setTrustLevelInvoke exCtxMallory exStFresh "admin" =
        .error (.unknownTrustLevel "admin") := by
  refine ⟨rfl, rfl, ?_, ?_⟩
  · exact (C10_setTrust_open exCtxMallory exStFresh "all").1 (Or.inr rfl)
  · exact (C10_setTrust_open exCtxMallory exStFresh "admin").2 (by decide)

end NearApps
